import Mathlib

/-!
Verification development for the Protakeoff backend
(`src/controllers/takeoffController.js`, `src/middleware/auth.js`).

The JavaScript source is shallowly embedded: each controller function
becomes a pure Lean function over explicit inputs; results of external
asynchronous calls (Cloudinary uploads/deletes, the pdf2pic renderer,
the document store's lookup) are passed in as explicit arguments, and
the sequence of remote calls a handler issues is returned as an event
trace.  `JSON.parse` / the client-side JSON encoding are modelled by an
executable parser/printer pair over a JSON value type (numbers are kept
as their raw lexeme, sidestepping floating point; the parser is
deliberately permissive where real `JSON.parse` is stricter — it never
rejects a string that `JSON.parse` accepts).
-/

namespace Protakeoff

/-! ## JSON values (result of `JSON.parse` in the controller) -/

inductive Json where
  | jnull : Json
  | jbool : Bool → Json
  | jnum : String → Json
  | jstr : String → Json
  | jarr : List Json → Json
  | jobj : List (String × Json) → Json
deriving Repr

/-! ### Lexing helpers for the `JSON.parse` model -/

def isWs (c : Char) : Bool := c = ' ' || c = '\t' || c = '\n' || c = '\r'

def skipWs : List Char → List Char
  | [] => []
  | c :: cs => if isWs c then skipWs cs else c :: cs

/-- Decoding of a single backslash escape inside a JSON string.
`\u` sequences are kept permissively as a literal `u` (the claims never
inspect decoded escape values). -/
def unescapeChar (c : Char) : Char :=
  if c = 'n' then '\n'
  else if c = 't' then '\t'
  else if c = 'r' then '\r'
  else if c = 'b' then Char.ofNat 8
  else if c = 'f' then Char.ofNat 12
  else c

/-- Scan the body of a JSON string after the opening quote, up to and
including the closing quote; returns the decoded characters and the
remaining input. -/
def parseStrChars : List Char → Option (List Char × List Char)
  | [] => none
  | '"' :: cs => some ([], cs)
  | '\\' :: [] => none
  | '\\' :: e :: cs' =>
    match parseStrChars cs' with
    | none => none
    | some (s, r) => some (unescapeChar e :: s, r)
  | c :: cs =>
    match parseStrChars cs with
    | none => none
    | some (s, r) => some (c :: s, r)

/-- Longest run of decimal digits. -/
def takeDigits : List Char → List Char × List Char
  | [] => ([], [])
  | c :: cs =>
    if c.isDigit then
      let (d, r) := takeDigits cs
      (c :: d, r)
    else ([], c :: cs)

def parseFracPart : List Char → List Char × List Char
  | '.' :: cs =>
    match takeDigits cs with
    | ([], _) => ([], '.' :: cs)
    | (ds, r) => ('.' :: ds, r)
  | cs => ([], cs)

def parseExpPart : List Char → List Char × List Char
  | c :: cs =>
    if c = 'e' || c = 'E' then
      let (sgn, cs1) :=
        match cs with
        | s :: t => if s = '+' || s = '-' then ([s], t) else (([] : List Char), s :: t)
        | [] => ([], [])
      match takeDigits cs1 with
      | ([], _) => ([], c :: cs)
      | (ds, r) => (c :: (sgn ++ ds), r)
    else ([], c :: cs)
  | [] => ([], [])

/-- JSON number lexeme: optional minus, digits, optional fraction,
optional exponent (permissive about leading zeros). -/
def parseNumLex (cs : List Char) : Option (List Char × List Char) :=
  let (neg, cs1) :=
    match cs with
    | '-' :: t => ((['-'] : List Char), t)
    | _ => ([], cs)
  match takeDigits cs1 with
  | ([], _) => none
  | (ds, r1) =>
    let (f, r2) := parseFracPart r1
    let (e, r3) := parseExpPart r2
    some (neg ++ ds ++ f ++ e, r3)

/-! ### The recursive-descent value parser (fuel-indexed) -/

mutual

def parseVal : Nat → List Char → Option (Json × List Char)
  | 0, _ => none
  | Nat.succ f, cs =>
    match skipWs cs with
    | [] => none
    | c :: rest =>
      if c = '"' then
        match parseStrChars rest with
        | none => none
        | some (s, r) => some (.jstr (String.mk s), r)
      else if c = '[' then
        match skipWs rest with
        | ']' :: r => some (.jarr [], r)
        | cs' =>
          match parseElems f cs' with
          | none => none
          | some (l, r) => some (.jarr l, r)
      else if c = '{' then
        match skipWs rest with
        | '}' :: r => some (.jobj [], r)
        | cs' =>
          match parseMembers f cs' with
          | none => none
          | some (l, r) => some (.jobj l, r)
      else if c = 't' then
        match rest with
        | 'r' :: 'u' :: 'e' :: r => some (.jbool true, r)
        | _ => none
      else if c = 'f' then
        match rest with
        | 'a' :: 'l' :: 's' :: 'e' :: r => some (.jbool false, r)
        | _ => none
      else if c = 'n' then
        match rest with
        | 'u' :: 'l' :: 'l' :: r => some (.jnull, r)
        | _ => none
      else
        match parseNumLex (c :: rest) with
        | none => none
        | some (ds, r) => some (.jnum (String.mk ds), r)

def parseElems : Nat → List Char → Option (List Json × List Char)
  | 0, _ => none
  | Nat.succ f, cs =>
    match parseVal f cs with
    | none => none
    | some (v, r) =>
      match skipWs r with
      | ',' :: r2 =>
        match parseElems f r2 with
        | none => none
        | some (l, rr) => some (v :: l, rr)
      | ']' :: r2 => some ([v], r2)
      | _ => none

def parseMembers : Nat → List Char → Option (List (String × Json) × List Char)
  | 0, _ => none
  | Nat.succ f, cs =>
    match skipWs cs with
    | '"' :: r0 =>
      match parseStrChars r0 with
      | none => none
      | some (k, r1) =>
        match skipWs r1 with
        | ':' :: r2 =>
          match parseVal f r2 with
          | none => none
          | some (v, r3) =>
            match skipWs r3 with
            | ',' :: r4 =>
              match parseMembers f r4 with
              | none => none
              | some (l, rr) => some ((String.mk k, v) :: l, rr)
            | '}' :: r4 => some ([(String.mk k, v)], r4)
            | _ => none
        | _ => none
    | _ => none

end

/-- Model of `JSON.parse`: `none` is a thrown `SyntaxError`. -/
def jsonParse (s : String) : Option Json :=
  match parseVal (s.length + 1) s.data with
  | some (v, rest) => if skipWs rest = [] then some v else none
  | none => none

/-! ### Canonical JSON encoding (what a client's `JSON.stringify`
produces for values without characters needing escapes) -/

mutual

def encodeJson : Json → List Char
  | .jnull => ['n', 'u', 'l', 'l']
  | .jbool true => ['t', 'r', 'u', 'e']
  | .jbool false => ['f', 'a', 'l', 's', 'e']
  | .jnum s => s.data
  | .jstr s => '"' :: (s.data ++ ['"'])
  | .jarr [] => ['[', ']']
  | .jarr (v :: vs) => '[' :: (encodeJson v ++ encodeElems vs)
  | .jobj [] => ['{', '}']
  | .jobj ((k, v) :: ms) =>
      '{' :: ('"' :: (k.data ++ ['"', ':'])) ++ encodeJson v ++ encodeMembers ms

def encodeElems : List Json → List Char
  | [] => [']']
  | v :: vs => ',' :: (encodeJson v ++ encodeElems vs)

def encodeMembers : List (String × Json) → List Char
  | [] => ['}']
  | (k, v) :: ms => ',' :: ('"' :: (k.data ++ ['"', ':'])) ++ encodeJson v ++ encodeMembers ms

end

/-! ### Size measure and cleanliness predicate used by the round-trip
theorem (values without characters that would need escaping, without
numbers or objects) -/

mutual

def jsonSize : Json → Nat
  | .jnull => 1
  | .jbool _ => 1
  | .jnum _ => 1
  | .jstr _ => 1
  | .jarr l => 1 + elemsSize l
  | .jobj _ => 1

def elemsSize : List Json → Nat
  | [] => 0
  | v :: vs => jsonSize v + 1 + elemsSize vs

end

def cleanStrB (s : String) : Bool := s.data.all fun c => !(c = '"' || c = '\\')

mutual

def cleanJson : Json → Bool
  | .jnull => true
  | .jbool _ => true
  | .jnum _ => false
  | .jstr s => cleanStrB s
  | .jarr l => cleanList l
  | .jobj _ => false

def cleanList : List Json → Bool
  | [] => true
  | v :: vs => cleanJson v && cleanList vs

end

/-- The encoded text a client sends for a `features` array of strings. -/
def encodeStrArray (ss : List String) : String :=
  String.mk (encodeJson (.jarr (ss.map .jstr)))

/-! ## Stored field values and request body values

`features`, `specifications`, `tags` arrive in the multipart body; the
controller runs `JSON.parse` on string values, falling back to the raw
string on a parse error, and passes non-string values through. -/

inductive JsVal where
  | json (v : Json)
  | raw (s : String)
deriving Repr

inductive BodyVal where
  | str (s : String)
  | val (v : Json)
deriving Repr

/-- The `try JSON.parse catch` decode-with-fallback used for
`features`, `specifications` and `tags` in `createTakeoff` and
`updateTakeoff`. -/
def parseBodyField : BodyVal → JsVal
  | .str s =>
    match jsonParse s with
    | some v => .json v
    | none => .raw s
  | .val v => .json v

/-! ## Data model: Attachment and Takeoff (Listing Record) -/

structure Attachment where
  filename : String
  originalName : String
  size : Nat
  cloudinaryPublicId : Option String
  cloudinaryUrl : String
  resourceType : String
  uploadDate : Nat
  firstPagePreviewUrl : Option String
  isPdf : Bool
deriving Repr

/-- A Listing Record as persisted in the document store.  Scalar fields
are `Option` because document-store fields may be absent; timestamps are
`Nat`. -/
structure Takeoff where
  title : Option String := none
  description : Option String := none
  projectType : Option String := none
  projectSize : Option String := none
  zipCode : Option String := none
  address : Option String := none
  price : Option Int := none
  features : Option JsVal := none
  specifications : Option JsVal := none
  tags : Option JsVal := none
  isActive : Option Bool := none
  expirationDate : Option Nat := none
  createdBy : Option String := none
  createdAt : Nat := 0
  updatedAt : Nat := 0
  files : List Attachment := []
  pdfPreview : List Attachment := []
deriving Repr

/-- Scalar part of a multipart request body (create and update).
`createTakeoff` never reads `description`; `updateTakeoff` does. -/
structure ReqBody where
  title : Option String := none
  description : Option String := none
  projectType : Option String := none
  projectSize : Option String := none
  zipCode : Option String := none
  address : Option String := none
  price : Option Int := none
  features : Option BodyVal := none
  specifications : Option BodyVal := none
  tags : Option BodyVal := none
  isActive : Option Bool := none
  expirationDate : Option Nat := none
  createdBy : Option String := none
deriving Repr

/-- HTTP responses the handlers can produce. -/
inductive Resp where
  | created (t : Takeoff)
  | jsonDoc (t : Takeoff)
  | jsonList (ts : List Takeoff)
  | okMsg (message : String)
  | badRequest (errors : List String)
  | notFound (error : String)
  | serverError (error : String)
deriving Repr

/-! ## Upload pipeline -/

inductive StorageMode where
  | disk
  | buffer
deriving Repr, DecidableEq

/-- Result shape returned by a successful Cloudinary upload. -/
structure CloudRes where
  publicId : String
  secureUrl : String
deriving Repr

/-- One page produced by the pdf2pic renderer. -/
structure PageData where
  name : String
deriving Repr

/-- A multer upload entry.  `filename` is set by disk storage and absent
under memory storage; `path` is only meaningful in disk mode. -/
structure UploadedFile where
  originalname : String
  mimetype : String
  size : Nat
  filename : Option String := none
  path : String := ""
deriving Repr

/-- Outcomes of the external calls made while processing one uploaded
file: the raw Cloudinary upload, the `fs.existsSync` checks, the
pdf2pic conversion, and the preview-PNG upload. -/
structure FileEnv where
  uploadRes : Except String CloudRes
  fileExists : Bool := true
  convertRes : Except String (List PageData) := .ok []
  previewFileExists : Bool := true
  previewUploadRes : Except String CloudRes := .error "unused"
deriving Repr

/-- JS `a || b` on an optional string (`undefined` and `""` are falsy). -/
def jsOrStr (o : Option String) (d : String) : String :=
  match o with
  | some s => if s = "" then d else s
  | none => d

/-- `uploadToCloudinary`: in disk mode fails with `File not found` when
the path does not exist, otherwise forwards the remote API's outcome
(errors are logged and rethrown). -/
def uploadToCloudinary (mode : StorageMode) (fileExists : Bool)
    (remote : Except String CloudRes) : Except String CloudRes :=
  if mode = .disk && !fileExists then .error "File not found"
  else remote

/-- Body of `generatePdfPreview` before its `catch`: the existence
check, the pdf2pic conversion (which may throw), and the page-count
check.  `dir` abstracts `path.dirname(outputPath)`. -/
def genPdfBody (mode : StorageMode) (fileExists : Bool)
    (convertRes : Except String (List PageData)) (dir : String) :
    Except String (Option String) :=
  if mode = .disk && !fileExists then .ok none
  else
    match convertRes with
    | .error e => .error e
    | .ok [] => .ok none
    | .ok (p :: _) => .ok (some (dir ++ "/" ++ p.name))

/-- `generatePdfPreview`: the body wrapped in `try ... catch (return
null)` — any thrown error becomes `null`. -/
def generatePdfPreview (mode : StorageMode) (fileExists : Bool)
    (convertRes : Except String (List PageData)) (dir : String) : Option String :=
  match genPdfBody mode fileExists convertRes dir with
  | .ok r => r
  | .error _ => none

/-- `generatePdfPreviewFromBuffer`: always skips preview generation and
returns `null`. -/
def generatePdfPreviewFromBuffer (_buffer : List Nat) (_originalname : String) :
    Option String := none

/-- Remote calls issued while processing one uploaded file. -/
inductive PEv where
  | uploadRaw
  | genPreviewCall
  | uploadPreviewCall
deriving Repr, DecidableEq

/-- Per-file processing for the `files` field-group of create/update:
raw upload, then — in disk mode, when the declared MIME type is
`application/pdf` — preview generation and preview upload.  Returns the
calls issued and either the attachment metadata or the thrown error. -/
def processFilesEntry (mode : StorageMode) (now : Nat)
    (f : UploadedFile) (env : FileEnv) : List PEv × Except String Attachment :=
  let attach (preview : Option String) (isPdf : Bool) (res : CloudRes) : Attachment :=
    { filename := jsOrStr f.filename (toString now ++ "-" ++ f.originalname)
      originalName := f.originalname
      size := f.size
      cloudinaryPublicId := some res.publicId
      cloudinaryUrl := res.secureUrl
      resourceType := "raw"
      uploadDate := now
      firstPagePreviewUrl := preview
      isPdf := isPdf }
  match mode with
  | .buffer =>
    match env.uploadRes with
    | .error e => ([.uploadRaw], .error e)
    | .ok res => ([.uploadRaw], .ok (attach none (f.mimetype = "application/pdf") res))
  | .disk =>
    match uploadToCloudinary .disk env.fileExists env.uploadRes with
    | .error e => ([.uploadRaw], .error e)
    | .ok res =>
      if f.mimetype = "application/pdf" then
        match generatePdfPreview .disk env.fileExists env.convertRes f.path with
        | some _previewPath =>
          match uploadToCloudinary .disk env.previewFileExists env.previewUploadRes with
          | .error e => ([.uploadRaw, .genPreviewCall, .uploadPreviewCall], .error e)
          | .ok pres =>
            ([.uploadRaw, .genPreviewCall, .uploadPreviewCall],
             .ok (attach (some pres.secureUrl) true res))
        | none => ([.uploadRaw, .genPreviewCall], .ok (attach none true res))
      else ([.uploadRaw], .ok (attach none false res))

/-- Per-file processing for the `pdfPreview` field-group: identical
upload logic, but the stored attachment always has `isPdf := true`;
preview generation is still guarded by the declared MIME type
(lines 219 and 442 of the controller). -/
def processPdfPreviewEntry (mode : StorageMode) (now : Nat)
    (f : UploadedFile) (env : FileEnv) : List PEv × Except String Attachment :=
  let attach (preview : Option String) (res : CloudRes) : Attachment :=
    { filename := jsOrStr f.filename (toString now ++ "-" ++ f.originalname)
      originalName := f.originalname
      size := f.size
      cloudinaryPublicId := some res.publicId
      cloudinaryUrl := res.secureUrl
      resourceType := "raw"
      uploadDate := now
      firstPagePreviewUrl := preview
      isPdf := true }
  match mode with
  | .buffer =>
    match env.uploadRes with
    | .error e => ([.uploadRaw], .error e)
    | .ok res => ([.uploadRaw], .ok (attach none res))
  | .disk =>
    match uploadToCloudinary .disk env.fileExists env.uploadRes with
    | .error e => ([.uploadRaw], .error e)
    | .ok res =>
      if f.mimetype = "application/pdf" then
        match generatePdfPreview .disk env.fileExists env.convertRes f.path with
        | some _previewPath =>
          match uploadToCloudinary .disk env.previewFileExists env.previewUploadRes with
          | .error e => ([.uploadRaw, .genPreviewCall, .uploadPreviewCall], .error e)
          | .ok pres =>
            ([.uploadRaw, .genPreviewCall, .uploadPreviewCall],
             .ok (attach (some pres.secureUrl) res))
        | none => ([.uploadRaw, .genPreviewCall], .ok (attach none res))
      else ([.uploadRaw], .ok (attach none res))

/-- Sequential `for ... of` loop over uploaded files: each file is fully
processed before the next; a thrown error aborts the loop and
propagates. -/
def processSeq (proc : UploadedFile → FileEnv → List PEv × Except String Attachment) :
    List (UploadedFile × FileEnv) → List PEv × Except String (List Attachment)
  | [] => ([], .ok [])
  | (f, env) :: rest =>
    match proc f env with
    | (tr, .error e) => (tr, .error e)
    | (tr, .ok a) =>
      match processSeq proc rest with
      | (tr', .error e) => (tr ++ tr', .error e)
      | (tr', .ok l) => (tr ++ tr', .ok (a :: l))

/-! ## createTakeoff -/

/-- `createTakeoff`.  Uploads the `files` group, then the `pdfPreview`
group (each sequentially, aborting on a thrown upload error, which the
handler's `catch` turns into a 500), decodes `features`,
`specifications`, `tags` with raw-string fallback, and persists the new
record.

Modelled from the spec: the Takeoff mongoose schema is not under
`src/` (only the controller that uses it is), so `takeoff.save()`
schema validation is abstracted as the externally supplied outcome
`validateRes` — `some errors` is a `ValidationError` answered with 400,
`none` lets the save succeed with 201. -/
def createTakeoff (mode : StorageMode) (now : Nat) (body : ReqBody)
    (filesIn pdfPreviewIn : List (UploadedFile × FileEnv))
    (validateRes : Option (List String)) : List PEv × Resp :=
  match processSeq (processFilesEntry mode now) filesIn with
  | (tr1, .error e) => (tr1, .serverError e)
  | (tr1, .ok files) =>
    match processSeq (processPdfPreviewEntry mode now) pdfPreviewIn with
    | (tr2, .error e) => (tr1 ++ tr2, .serverError e)
    | (tr2, .ok pdfP) =>
      match validateRes with
      | some errs => (tr1 ++ tr2, .badRequest errs)
      | none =>
        (tr1 ++ tr2, .created
          { title := body.title
            projectType := body.projectType
            projectSize := body.projectSize
            zipCode := body.zipCode
            address := body.address
            price := body.price
            features := body.features.map parseBodyField
            specifications := body.specifications.map parseBodyField
            tags := body.tags.map parseBodyField
            isActive := body.isActive
            expirationDate := body.expirationDate
            createdBy := body.createdBy
            createdAt := now
            updatedAt := now
            files := files
            pdfPreview := pdfP })

/-! ## getAllTakeoffs: filter, sort, paginate -/

/-- The optional query parameters of `GET /takeoffs`.  `priceMin`,
`priceMax`, `page`, `limit` are numeric query strings, modelled after
their `Number(...)` conversion. -/
structure ListQuery where
  zipCode : Option String := none
  size : Option String := none
  type : Option String := none
  priceMin : Option Int := none
  priceMax : Option Int := none
  search : Option String := none
  sort : Option String := none
  page : Option Nat := none
  limit : Option Nat := none
deriving Repr

/-- JS truthiness of an optional query-string parameter (`undefined`
and `""` are falsy, so `if (param)` skips the filter for both). -/
def truthy (o : Option String) : Option String :=
  match o with
  | some s => if s = "" then none else some s
  | none => none

/-- JS `String.prototype.split` with a single-character separator: cuts
at every occurrence, keeping empty segments. -/
def jsSplit (sep : Char) : List Char → List (List Char)
  | [] => [[]]
  | c :: rest =>
    match jsSplit sep rest with
    | [] => [[]]
    | h :: t => if c = sep then [] :: h :: t else (c :: h) :: t

/-- JS `String.prototype.toLowerCase` (ASCII model). -/
def jsToLowerStr (s : String) : String := String.mk (s.data.map Char.toLower)

/-- JS `String.prototype.trim`: whitespace stripped from both ends. -/
def jsTrimStr (s : String) : String :=
  String.mk (((s.data.dropWhile Char.isWhitespace).reverse.dropWhile Char.isWhitespace).reverse)

/-- The `$in` test built for a comma-separated `type` parameter: the
query values are trimmed and lower-cased, the stored value is compared
to them exactly. -/
def typeMatches (ty : String) (stored : Option String) : Bool :=
  match stored with
  | none => false
  | some s => ((jsSplit ',' ty.data).map (fun v => jsToLowerStr (jsTrimStr (String.mk v)))).contains s

/-- The `price` range clause ($gte/$lte): a document with no price
field matches no range comparison. -/
def priceMatches (priceMin priceMax : Option Int) (price : Option Int) : Bool :=
  match priceMin, priceMax with
  | none, none => true
  | _, _ =>
    match price with
    | none => false
    | some p =>
      (match priceMin with | some m => decide (m ≤ p) | none => true) &&
      (match priceMax with | some m => decide (p ≤ m) | none => true)

/-! ### Model of MongoDB `$regex` with the `i` option, for the fragment
of patterns made of literal characters and the `.` wildcard (the only
metacharacter the claims exercise; other PCRE metacharacters are
treated as literals by this model). -/

def patCharMatches (p c : Char) : Bool := p = '.' || p.toLower = c.toLower

/-- Does the pattern match a prefix of the text? -/
def patMatchAt : List Char → List Char → Bool
  | [], _ => true
  | _ :: _, [] => false
  | p :: ps, c :: cs => patCharMatches p c && patMatchAt ps cs

/-- Unanchored search: does the pattern match starting at some
position? -/
def patSearch (ps : List Char) : List Char → Bool
  | [] => patMatchAt ps []
  | c :: cs => patMatchAt ps (c :: cs) || patSearch ps cs

/-- `field: \x7b $regex: pat, $options: 'i' \x7d` on a present string
field. -/
def regexTestCI (pat s : String) : Bool := patSearch pat.data s.data

/-- Case-insensitive substring occurrence (the comparison the spec
describes for `search`). -/
def startsWithCI : List Char → List Char → Bool
  | [], _ => true
  | _ :: _, [] => false
  | n :: ns, h :: hs => (n.toLower = h.toLower) && startsWithCI ns hs

def containsAux (ns : List Char) : List Char → Bool
  | [] => startsWithCI ns []
  | c :: cs => startsWithCI ns (c :: cs) || containsAux ns cs

def containsCI (needle hay : String) : Bool := containsAux needle.data hay.data

/-- PCRE metacharacters: a search string avoiding all of these is a
literal pattern. -/
def isPcreMeta (c : Char) : Bool :=
  c = '.' || c = '*' || c = '+' || c = '?' || c = '^' || c = '$' ||
  c = '(' || c = ')' || c = '[' || c = ']' || c = '|' || c = '\\' ||
  c = Char.ofNat 123 || c = Char.ofNat 125

/-- The `$or` clause built for `search`: title, description, zipCode;
a missing field never matches. -/
def searchClause (s : String) (t : Takeoff) : Bool :=
  (match t.title with | some x => regexTestCI s x | none => false) ||
  (match t.description with | some x => regexTestCI s x | none => false) ||
  (match t.zipCode with | some x => regexTestCI s x | none => false)

/-- The compound filter `getAllTakeoffs` builds from the query. -/
def matchesFilter (q : ListQuery) (t : Takeoff) : Bool :=
  (match truthy q.zipCode with | none => true | some z => t.zipCode = some z) &&
  (match truthy q.size with | none => true | some s => t.projectSize = some (jsToLowerStr s)) &&
  (match truthy q.type with | none => true | some ty => typeMatches ty t.projectType) &&
  priceMatches q.priceMin q.priceMax t.price &&
  (match truthy q.search with | none => true | some s => searchClause s t)

def optStrLe : Option String → Option String → Bool
  | none, _ => true
  | some _, none => false
  | some a, some b => decide (a ≤ b)

def optIntLe : Option Int → Option Int → Bool
  | none, _ => true
  | some _, none => false
  | some a, some b => decide (a ≤ b)

/-- Sort option: `price_asc`, `price_desc`, `size`, `newest`; anything
else (and absence) falls back to newest-created-first. -/
def sortLe (sort : Option String) : Takeoff → Takeoff → Bool :=
  if sort = some "price_asc" then fun a b => optIntLe a.price b.price
  else if sort = some "price_desc" then fun a b => optIntLe b.price a.price
  else if sort = some "size" then fun a b => optStrLe a.projectSize b.projectSize
  else fun a b => decide (b.createdAt ≤ a.createdAt)

def insertLe (le : α → α → Bool) (x : α) : List α → List α
  | [] => [x]
  | y :: ys => if le x y then x :: y :: ys else y :: insertLe le x ys

/-- The document store's sort, modelled as insertion sort by the
selected comparator. -/
def sortByLe (le : α → α → Bool) : List α → List α
  | [] => []
  | x :: xs => insertLe le x (sortByLe le xs)

/-- The filtered and sorted (unpaginated) result sequence. -/
def sortedFiltered (q : ListQuery) (ts : List Takeoff) : List Takeoff :=
  sortByLe (sortLe q.sort) (ts.filter (matchesFilter q))

/-- `getAllTakeoffs` over the collection `ts`: filter, sort, then
`skip((page-1)*limit).limit(limit)` with defaults page 1 and limit 9.
(The `populate` of `createdBy` projects the creator document and is
identity on the takeoff fields modelled here.) -/
def getAllTakeoffs (q : ListQuery) (ts : List Takeoff) : List Takeoff :=
  let page := q.page.getD 1
  let lim := q.limit.getD 9
  ((sortedFiltered q ts).drop ((page - 1) * lim)).take lim

/-! ## getTakeoffById -/

/-- `getTakeoffById`, given the document store's lookup result. -/
def getTakeoffById (found : Option Takeoff) : Resp :=
  match found with
  | none => .notFound "Takeoff not found"
  | some t => .jsonDoc t

/-! ## updateTakeoff -/

/-- A supplied scalar overwrites the stored value wholesale; an absent
one leaves it unchanged (mongoose strips `undefined` update keys). -/
def applyScalar (supplied cur : Option α) : Option α :=
  match supplied with
  | some v => some v
  | none => cur

/-- `findByIdAndUpdate` with the update document `updateTakeoff`
builds: scalar `$set`s plus `$push: \x7b $each: ... \x7d` appends
(issued only for non-empty new-attachment lists). -/
def applyUpdateDoc (t : Takeoff) (body : ReqBody) (now : Nat)
    (newFiles newPdfPreview : List Attachment) : Takeoff :=
  { t with
    title := applyScalar body.title t.title
    description := applyScalar body.description t.description
    projectType := applyScalar body.projectType t.projectType
    projectSize := applyScalar body.projectSize t.projectSize
    zipCode := applyScalar body.zipCode t.zipCode
    address := applyScalar body.address t.address
    price := applyScalar body.price t.price
    features := applyScalar (body.features.map parseBodyField) t.features
    specifications := applyScalar (body.specifications.map parseBodyField) t.specifications
    tags := applyScalar (body.tags.map parseBodyField) t.tags
    expirationDate := applyScalar body.expirationDate t.expirationDate
    isActive := applyScalar body.isActive t.isActive
    updatedAt := now
    files := if newFiles.isEmpty then t.files else t.files ++ newFiles
    pdfPreview := if newPdfPreview.isEmpty then t.pdfPreview else t.pdfPreview ++ newPdfPreview }

/-- `updateTakeoff`: processes new uploads (before the existence check,
as in the source), then applies the update document; 404 when the
record does not exist.  Returns the issued calls, the response, and the
stored record afterwards. -/
def updateTakeoff (mode : StorageMode) (now : Nat) (found : Option Takeoff)
    (body : ReqBody) (filesIn pdfPreviewIn : List (UploadedFile × FileEnv)) :
    List PEv × Resp × Option Takeoff :=
  match processSeq (processFilesEntry mode now) filesIn with
  | (tr1, .error e) => (tr1, .serverError e, found)
  | (tr1, .ok files) =>
    match processSeq (processPdfPreviewEntry mode now) pdfPreviewIn with
    | (tr2, .error e) => (tr1 ++ tr2, .serverError e, found)
    | (tr2, .ok pdfP) =>
      match found with
      | none => (tr1 ++ tr2, .notFound "Takeoff not found", none)
      | some t =>
        let t' := applyUpdateDoc t body now files pdfP
        (tr1 ++ tr2, .jsonDoc t', some t')

/-! ## deleteTakeoff -/

/-- Remote calls issued by `deleteTakeoff`, in order. -/
inductive DelEv where
  | destroyAsset (publicId : String) (resourceType : String)
  | removeRecord
deriving Repr, DecidableEq

/-- The `cloudinary.uploader.destroy` calls issued for one attachment
collection: one per attachment whose `cloudinaryPublicId` is truthy
(present and non-empty), with resource kind `raw`. -/
def destroyCallsFor (atts : List Attachment) : List DelEv :=
  atts.filterMap fun a =>
    match a.cloudinaryPublicId with
    | some pid => if pid = "" then none else some (.destroyAsset pid "raw")
    | none => none

/-- `deleteTakeoff`, given the document store's lookup result: 404 when
absent; otherwise destroy calls for `files`, then for `pdfPreview`,
each awaited in turn, then the record removal, then the confirmation
message. -/
def deleteTakeoff (found : Option Takeoff) : List DelEv × Resp :=
  match found with
  | none => ([], .notFound "Takeoff not found")
  | some t =>
    (destroyCallsFor t.files ++ destroyCallsFor t.pdfPreview ++ [.removeRecord],
     .okMsg "Takeoff deleted")

/-! ## Auth middleware (`src/middleware/auth.js`) -/

/-- The decoded JWT claims attached to `req.user`. -/
structure DecodedToken where
  role : Option String := none
  sub : String := ""
deriving Repr, DecidableEq

/-- Outcome of a middleware run. -/
inductive AuthOutcome where
  | denied (status : Nat) (message : String)
  | proceed (user : DecodedToken)
deriving Repr, DecidableEq

/-- `authHeader && authHeader.split(' ')[1]` followed by the `!token`
truthiness test: the effective token, when one survives. -/
def extractToken (authHeader : Option String) : Option String :=
  match authHeader with
  | none => none
  | some h =>
    match (jsSplit ' ' h.data).get? 1 with
    | none => none
    | some cs => if cs.isEmpty then none else some (String.mk cs)

/-- The auth middleware: 401 without an effective token; otherwise
`jwt.verify` (abstracted as `verify`, the verification against the
configured secret), 401 on a thrown verification error, and on success
the decoded claims are attached and the chain continues. -/
def authMiddleware (authHeader : Option String)
    (verify : String → Except String DecodedToken) : AuthOutcome :=
  match extractToken authHeader with
  | none => .denied 401 "No token, authorization denied"
  | some t =>
    match verify t with
    | .ok decoded => .proceed decoded
    | .error _ => .denied 401 "Token is not valid"

/-- The `adminOnly` middleware: 403 unless claims are attached and the
role claim is `admin`. -/
def adminOnly (user : Option DecodedToken) : AuthOutcome :=
  match user with
  | none => .denied 403 "Admin access required"
  | some u =>
    if u.role = some "admin" then .proceed u
    else .denied 403 "Admin access required"

/-! ## Concrete sample data (used by witnesses and counterexamples) -/

def sampleVerify : String → Except String DecodedToken :=
  fun s => if s = "tok" then .ok { role := some "admin", sub := "u1" } else .error "bad signature"

def sampleDecoded : DecodedToken := { role := some "admin", sub := "u1" }

/-- An attachment whose remote storage id is absent. -/
def noIdAttachment : Attachment :=
  { filename := "f-1", originalName := "f.pdf", size := 10
    cloudinaryPublicId := none, cloudinaryUrl := "https://res/x"
    resourceType := "raw", uploadDate := 0, firstPagePreviewUrl := none, isPdf := true }

/-- An attachment with a remote storage id. -/
def withIdAttachment : Attachment :=
  { filename := "g-1", originalName := "g.pdf", size := 20
    cloudinaryPublicId := some "takeoffs/g", cloudinaryUrl := "https://res/g"
    resourceType := "raw", uploadDate := 0, firstPagePreviewUrl := none, isPdf := true }

def noIdRecord : Takeoff := { files := [noIdAttachment] }

def sampleRecord : Takeoff :=
  { title := some "Roof bid", projectType := some "residential"
    projectSize := some "small", zipCode := some "75001"
    price := some 100, createdAt := 5
    files := [withIdAttachment], pdfPreview := [noIdAttachment] }

/-- A record whose stored project type contains an uppercase letter. -/
def upperTypeRecord : Takeoff := { projectType := some "A", createdAt := 1 }

/-- A record used for the search-regex counterexample. -/
def dotRecord : Takeoff := { title := some "a", createdAt := 1 }

/-- The attachment `processFilesEntry` builds for `pdfFile` under
buffer mode with `okEnv`. -/
def bufferPlanAttachment : Attachment :=
  { filename := "plan-1", originalName := "plan.pdf", size := 4
    cloudinaryPublicId := some "takeoffs/a", cloudinaryUrl := "https://res/a"
    resourceType := "raw", uploadDate := 0, firstPagePreviewUrl := none, isPdf := true }

def pngFile : UploadedFile :=
  { originalname := "scan.png", mimetype := "image/png", size := 3
    filename := some "scan-1", path := "uploads/scan-1" }

def pdfFile : UploadedFile :=
  { originalname := "plan.pdf", mimetype := "application/pdf", size := 4
    filename := some "plan-1", path := "uploads/plan-1" }

/-- External-call outcomes where every remote call succeeds and the
renderer produces one page. -/
def okEnv : FileEnv :=
  { uploadRes := .ok { publicId := "takeoffs/a", secureUrl := "https://res/a" }
    fileExists := true
    convertRes := .ok [{ name := "preview.1.png" }]
    previewFileExists := true
    previewUploadRes := .ok { publicId := "pdf-previews/a", secureUrl := "https://res/p" } }

/-- The attachment `processPdfPreviewEntry` builds for `pdfFile` under
disk mode with `okEnv`. -/
def diskPlanAttachment : Attachment :=
  { filename := "plan-1", originalName := "plan.pdf", size := 4
    cloudinaryPublicId := some "takeoffs/a", cloudinaryUrl := "https://res/a"
    resourceType := "raw", uploadDate := 0
    firstPagePreviewUrl := some "https://res/p", isPdf := true }

/-- External-call outcomes where the renderer throws. -/
def renderFailEnv : FileEnv :=
  { uploadRes := .ok { publicId := "takeoffs/a", secureUrl := "https://res/a" }
    fileExists := true
    convertRes := .error "gm rasterize failed"
    previewFileExists := true
    previewUploadRes := .ok { publicId := "pdf-previews/a", secureUrl := "https://res/p" } }

/-! # Theorems -/

/-! ## Auth middleware lemmas -/

theorem jsSplit_ne_nil (sep : Char) (cs : List Char) : jsSplit sep cs ≠ [] := by
  cases cs with
  | nil => simp [jsSplit]
  | cons c rest =>
    simp only [jsSplit]
    rcases jsSplit sep rest with _ | ⟨hd, tl⟩
    · simp
    · by_cases hc : c = sep <;> simp [hc]

theorem jsSplit_no_sep (sep : Char) (cs : List Char) (h : sep ∉ cs) :
    jsSplit sep cs = [cs] := by
  induction cs with
  | nil => rfl
  | cons c rest ih =>
    simp only [List.mem_cons, not_or] at h
    have hc : ¬ c = sep := fun hc => h.1 hc.symm
    simp only [jsSplit, ih h.2]
    simp [hc]

theorem jsSplit_append_sep (sep : Char) (a b : List Char) (h : sep ∉ a) :
    jsSplit sep (a ++ sep :: b) = a :: jsSplit sep b := by
  induction a with
  | nil =>
    simp only [List.nil_append, jsSplit]
    rcases hb : jsSplit sep b with _ | ⟨hd, tl⟩
    · exact absurd hb (jsSplit_ne_nil sep b)
    · simp
  | cons c rest ih =>
    simp only [List.mem_cons, not_or] at h
    have hc : ¬ c = sep := fun hc => h.1 hc.symm
    rw [List.cons_append, jsSplit, ih h.2]
    simp [hc]

theorem extractToken_scheme (scheme rest : String) (h : ' ' ∉ scheme.data) :
    extractToken (some (scheme ++ " " ++ rest)) =
      match (jsSplit ' ' rest.data).get? 0 with
      | none => none
      | some cs => if cs.isEmpty then none else some (String.mk cs) := by
  have hsp : (" " : String).data = [' '] := rfl
  have hdata : (scheme ++ " " ++ rest).data = scheme.data ++ ' ' :: rest.data := by
    rw [String.data_append, String.data_append, hsp, List.append_assoc]
    rfl
  simp only [extractToken, hdata, jsSplit_append_sep ' ' scheme.data rest.data h]
  rfl

/-! ## C8 and C10: auth middleware -/

/-- C8: for every request, the middleware answers 401 when no token is
present (no second space-separated segment survives the truthiness
test); when a token is present it is passed to the verifier (the
verification against the configured secret), a verification error
yields 401, and success attaches the decoded claims (including the
role) to the request context and continues the chain. -/
theorem c8_authenticate (h : Option String)
    (verify : String → Except String DecodedToken) :
    (extractToken h = none →
       authMiddleware h verify = .denied 401 "No token, authorization denied") ∧
    (∀ t e, extractToken h = some t → verify t = .error e →
       authMiddleware h verify = .denied 401 "Token is not valid") ∧
    (∀ t d, extractToken h = some t → verify t = .ok d →
       authMiddleware h verify = .proceed d) := by
  refine ⟨fun hn => ?_, fun t e ht hv => ?_, fun t d ht hv => ?_⟩
  · simp [authMiddleware, hn]
  · simp [authMiddleware, ht, hv]
  · simp [authMiddleware, ht, hv]

theorem c8_authenticate_witness :
    authMiddleware none sampleVerify = .denied 401 "No token, authorization denied" ∧
    authMiddleware (some "Bearer bad") sampleVerify = .denied 401 "Token is not valid" ∧
    authMiddleware (some "Bearer tok") sampleVerify = .proceed sampleDecoded :=
  ⟨(c8_authenticate none sampleVerify).1 rfl,
   (c8_authenticate (some "Bearer bad") sampleVerify).2.1 "bad" "bad signature" rfl rfl,
   (c8_authenticate (some "Bearer tok") sampleVerify).2.2 "tok" sampleDecoded rfl rfl⟩

/-- C10: the verified token is exactly the second space-separated
segment of the Authorization header, independent of the scheme word
(`Basic <t>` and `X <t>` behave exactly like `Bearer <t>`); a header
that is a single word without a space, or an absent header, is rejected
with 401 for every verifier, i.e. before any verification happens. -/
theorem c10_second_segment (verify : String → Except String DecodedToken) :
    (∀ s₁ s₂ rest : String, ' ' ∉ s₁.data → ' ' ∉ s₂.data →
       authMiddleware (some (s₁ ++ " " ++ rest)) verify
         = authMiddleware (some (s₂ ++ " " ++ rest)) verify) ∧
    (∀ scheme t : String, ' ' ∉ scheme.data → ' ' ∉ t.data → t ≠ "" →
       extractToken (some (scheme ++ " " ++ t)) = some t) ∧
    (∀ w : String, ' ' ∉ w.data →
       authMiddleware (some w) verify = .denied 401 "No token, authorization denied") ∧
    authMiddleware none verify = .denied 401 "No token, authorization denied" := by
  refine ⟨?_, ?_, ?_, rfl⟩
  · intro s₁ s₂ rest h₁ h₂
    unfold authMiddleware
    rw [extractToken_scheme s₁ rest h₁, extractToken_scheme s₂ rest h₂]
  · intro scheme t h₁ h₂ ht
    have hnil : t.data ≠ [] := by
      intro hd
      exact ht (String.ext (hd.trans rfl))
    rw [extractToken_scheme scheme t h₁, jsSplit_no_sep ' ' t.data h₂]
    rcases hd : t.data with _ | ⟨c, cs⟩
    · exact absurd hd hnil
    · simp only [List.get?, List.isEmpty]
      have : String.mk (c :: cs) = t := by rw [← hd]
      simp [this]
  · intro w hw
    simp only [authMiddleware, extractToken, jsSplit_no_sep ' ' w.data hw]
    rfl

theorem c10_second_segment_witness :
    authMiddleware (some ("Basic" ++ " " ++ "tok")) sampleVerify
      = authMiddleware (some ("Bearer" ++ " " ++ "tok")) sampleVerify ∧
    extractToken (some ("X" ++ " " ++ "tok")) = some "tok" ∧
    authMiddleware (some "loneword") sampleVerify
      = .denied 401 "No token, authorization denied" :=
  ⟨(c10_second_segment sampleVerify).1 "Basic" "Bearer" "tok" (by decide) (by decide),
   (c10_second_segment sampleVerify).2.1 "X" "tok" (by decide) (by decide) (by decide),
   (c10_second_segment sampleVerify).2.2.1 "loneword" (by decide)⟩

/-! ## C1: delete cascade -/

theorem destroyCallsFor_shape (atts : List Attachment) :
    ∀ ev ∈ destroyCallsFor atts, ∃ pid, ev = DelEv.destroyAsset pid "raw" := by
  intro ev hev
  simp only [destroyCallsFor, List.mem_filterMap] at hev
  obtain ⟨a, _, ha⟩ := hev
  rcases hid : a.cloudinaryPublicId with _ | pid
  · rw [hid] at ha
    simp at ha
  · rw [hid] at ha
    by_cases hp : pid = ""
    · simp [hp] at ha
    · simp only [hp, if_false] at ha
      exact ⟨pid, (Option.some_inj.1 ha).symm⟩

theorem mem_destroyCallsFor (atts : List Attachment) (a : Attachment) (pid : String)
    (hmem : a ∈ atts) (hid : a.cloudinaryPublicId = some pid) (hne : pid ≠ "") :
    DelEv.destroyAsset pid "raw" ∈ destroyCallsFor atts := by
  simp only [destroyCallsFor, List.mem_filterMap]
  exact ⟨a, hmem, by simp [hid, hne]⟩

/-- C1 (amended): `delete(id)` fails 404 if the record is absent;
otherwise it issues a remote-delete call (resource kind `raw`) for
every attachment in `files` and `pdfPreview` **that has a non-empty
remote storage id** (the guard `if (file.cloudinaryPublicId)` skips the
rest), awaiting each in turn — the `files` collection first, then
`pdfPreview` — and only after all those deletions does it remove the
record, then responds with a confirmation message. -/
theorem c1_delete_order (found : Option Takeoff) :
    (found = none → deleteTakeoff found = ([], .notFound "Takeoff not found")) ∧
    (∀ t, found = some t →
       (deleteTakeoff found).2 = .okMsg "Takeoff deleted" ∧
       ∃ ds, (deleteTakeoff found).1 = ds ++ [DelEv.removeRecord] ∧
         (∀ ev ∈ ds, ∃ pid, ev = DelEv.destroyAsset pid "raw") ∧
         ds = destroyCallsFor t.files ++ destroyCallsFor t.pdfPreview ∧
         (∀ a ∈ t.files ++ t.pdfPreview, ∀ pid, a.cloudinaryPublicId = some pid →
            pid ≠ "" → DelEv.destroyAsset pid "raw" ∈ ds)) := by
  refine ⟨fun hn => by simp [deleteTakeoff, hn], fun t ht => ?_⟩
  subst ht
  refine ⟨rfl, destroyCallsFor t.files ++ destroyCallsFor t.pdfPreview,
    by simp [deleteTakeoff, List.append_assoc], ?_, rfl, ?_⟩
  · intro ev hev
    rcases List.mem_append.1 hev with h | h
    · exact destroyCallsFor_shape _ ev h
    · exact destroyCallsFor_shape _ ev h
  · intro a ha pid hid hne
    rcases List.mem_append.1 ha with h | h
    · exact List.mem_append.2 (Or.inl (mem_destroyCallsFor _ a pid h hid hne))
    · exact List.mem_append.2 (Or.inr (mem_destroyCallsFor _ a pid h hid hne))

theorem c1_delete_order_witness :
    deleteTakeoff none = ([], .notFound "Takeoff not found") ∧
    (deleteTakeoff (some sampleRecord)).2 = .okMsg "Takeoff deleted" ∧
    DelEv.destroyAsset "takeoffs/g" "raw"
      ∈ destroyCallsFor sampleRecord.files ++ destroyCallsFor sampleRecord.pdfPreview := by
  refine ⟨(c1_delete_order none).1 rfl,
    ((c1_delete_order (some sampleRecord)).2 sampleRecord rfl).1, ?_⟩
  obtain ⟨ds, _, _, h3, h4⟩ := ((c1_delete_order (some sampleRecord)).2 sampleRecord rfl).2
  rw [← h3]
  refine h4 withIdAttachment ?_ "takeoffs/g" rfl (by decide)
  show withIdAttachment ∈ [withIdAttachment] ++ [noIdAttachment]
  simp

/-- C1 counterexample: for a record whose single attachment lacks a
remote storage id, `delete` issues no remote-delete call at all before
removing the record — refuting "a remote-delete call for every
attachment in both collections". -/
theorem c1_delete_counterexample :
    (deleteTakeoff (some noIdRecord)).1 = [DelEv.removeRecord] ∧
    noIdRecord.files = [noIdAttachment] ∧
    ¬ ∃ ev ∈ (deleteTakeoff (some noIdRecord)).1,
        ∃ pid rt, ev = DelEv.destroyAsset pid rt := by
  refine ⟨rfl, rfl, ?_⟩
  rintro ⟨ev, hev, pid, rt, rfl⟩
  have h : (deleteTakeoff (some noIdRecord)).1 = [DelEv.removeRecord] := rfl
  rw [h] at hev
  simp at hev

/-! ## C2: update appends, never replaces -/

/-- C2: for an existing record, an update whose uploads succeed appends
the newly processed attachments at the end of `files` / `pdfPreview`
and leaves every existing attachment in place and unchanged. -/
theorem c2_update_append (mode : StorageMode) (now : Nat) (t : Takeoff)
    (body : ReqBody) (filesIn pdfIn : List (UploadedFile × FileEnv))
    (files pdfP : List Attachment)
    (hf : (processSeq (processFilesEntry mode now) filesIn).2 = .ok files)
    (hp : (processSeq (processPdfPreviewEntry mode now) pdfIn).2 = .ok pdfP) :
    ∃ t', updateTakeoff mode now (some t) body filesIn pdfIn
        = ((processSeq (processFilesEntry mode now) filesIn).1
            ++ (processSeq (processPdfPreviewEntry mode now) pdfIn).1,
           .jsonDoc t', some t') ∧
      t'.files = t.files ++ files ∧
      t'.pdfPreview = t.pdfPreview ++ pdfP ∧
      t'.files.take t.files.length = t.files ∧
      t'.pdfPreview.take t.pdfPreview.length = t.pdfPreview := by
  have e1 : processSeq (processFilesEntry mode now) filesIn
      = ((processSeq (processFilesEntry mode now) filesIn).1, Except.ok files) :=
    Prod.ext_iff.2 ⟨rfl, hf⟩
  have e2 : processSeq (processPdfPreviewEntry mode now) pdfIn
      = ((processSeq (processPdfPreviewEntry mode now) pdfIn).1, Except.ok pdfP) :=
    Prod.ext_iff.2 ⟨rfl, hp⟩
  have hfiles : (applyUpdateDoc t body now files pdfP).files = t.files ++ files := by
    simp only [applyUpdateDoc]
    rcases files with _ | ⟨a, l⟩ <;> simp
  have hpdf : (applyUpdateDoc t body now files pdfP).pdfPreview = t.pdfPreview ++ pdfP := by
    simp only [applyUpdateDoc]
    rcases pdfP with _ | ⟨a, l⟩ <;> simp
  refine ⟨applyUpdateDoc t body now files pdfP, ?_, hfiles, hpdf, ?_, ?_⟩
  · rw [updateTakeoff, e1, e2]
  · rw [hfiles]
    exact List.take_left _ _
  · rw [hpdf]
    exact List.take_left _ _

theorem c2_update_append_witness :
    ∃ t', updateTakeoff .buffer 0 (some sampleRecord) {} [(pdfFile, okEnv)] []
        = ([PEv.uploadRaw], .jsonDoc t', some t') ∧
      t'.files = sampleRecord.files ++ [bufferPlanAttachment] ∧
      t'.pdfPreview = sampleRecord.pdfPreview := by
  obtain ⟨t', h1, h2, h3, _, _⟩ :=
    c2_update_append .buffer 0 sampleRecord {} [(pdfFile, okEnv)] []
      [bufferPlanAttachment] [] rfl rfl
  exact ⟨t', h1, h2, by rw [h3]; simp⟩

/-! ## C7: pagination -/

/-- C7: pagination is 1-based with defaults page 1 and limit 9; element
`i` of the returned page is element `(page-1)*limit + i` of the
filtered and sorted sequence, and a page starting past the end of that
sequence is the empty array (not an error). -/
theorem c7_pagination (q : ListQuery) (ts : List Takeoff)
    (_hpage : 1 ≤ q.page.getD 1) :
    (∀ i, i < q.limit.getD 9 →
       (getAllTakeoffs q ts)[i]? =
         (sortedFiltered q ts)[(q.page.getD 1 - 1) * q.limit.getD 9 + i]?) ∧
    ((sortedFiltered q ts).length ≤ (q.page.getD 1 - 1) * q.limit.getD 9 →
       getAllTakeoffs q ts = []) ∧
    getAllTakeoffs { q with page := none } ts
      = getAllTakeoffs { q with page := some 1 } ts ∧
    getAllTakeoffs { q with limit := none } ts
      = getAllTakeoffs { q with limit := some 9 } ts := by
  refine ⟨fun i hi => ?_, fun hpast => ?_, rfl, rfl⟩
  · rw [getAllTakeoffs, List.getElem?_take_of_lt hi, List.getElem?_drop]
  · rw [getAllTakeoffs, List.drop_eq_nil_of_le hpast, List.take_nil]

theorem c7_pagination_witness :
    1 ≤ (({ page := some 2, limit := some 1 } : ListQuery).page.getD 1) ∧
    (getAllTakeoffs { page := some 2, limit := some 1 } [sampleRecord, dotRecord])[0]? =
      (sortedFiltered { page := some 2, limit := some 1 } [sampleRecord, dotRecord])[1]? ∧
    getAllTakeoffs { page := some 9, limit := some 9 } [sampleRecord, dotRecord] = [] :=
  ⟨by decide,
   (c7_pagination { page := some 2, limit := some 1 } [sampleRecord, dotRecord]
      (by decide)).1 0 (by decide),
   (c7_pagination { page := some 9, limit := some 9 } [sampleRecord, dotRecord]
      (by decide)).2.1 (by decide)⟩

/-! ## C3: type filter (query casing normalized, stored casing not) -/

theorem mem_insertLe (le : α → α → Bool) (x a : α) (l : List α) :
    a ∈ insertLe le x l ↔ a = x ∨ a ∈ l := by
  induction l with
  | nil => simp [insertLe]
  | cons y ys ih =>
    simp only [insertLe]
    split
    · simp [List.mem_cons]
    · simp only [List.mem_cons, ih]
      tauto

theorem mem_sortByLe (le : α → α → Bool) (a : α) (l : List α) :
    a ∈ sortByLe le l ↔ a ∈ l := by
  induction l with
  | nil => simp [sortByLe]
  | cons x xs ih => simp [sortByLe, mem_insertLe, ih]

theorem mem_of_mem_getAllTakeoffs (q : ListQuery) (ts : List Takeoff) (t : Takeoff)
    (h : t ∈ getAllTakeoffs q ts) : matchesFilter q t = true := by
  rw [getAllTakeoffs] at h
  have h1 : t ∈ sortedFiltered q ts :=
    List.mem_of_mem_drop (List.mem_of_mem_take h)
  rw [sortedFiltered, mem_sortByLe] at h1
  exact (List.mem_filter.1 h1).2

/-- C3 (amended): with a comma-separated `type` parameter, a record is
in the returned page only if its stored project type string exactly
equals the trimmed-and-lower-cased form of one of the query values:
matching is insensitive to the casing of the query values, but the
stored value is compared case-sensitively against the lower-cased query
values (a stored value containing an uppercase letter never matches). -/
theorem c3_type_filter (ty : String) :
    (∀ s, typeMatches ty (some s) = true ↔
       ∃ v ∈ jsSplit ',' ty.data, s = jsToLowerStr (jsTrimStr (String.mk v))) ∧
    typeMatches ty none = false ∧
    (∀ q ts t, truthy q.type = some ty → t ∈ getAllTakeoffs q ts →
       typeMatches ty t.projectType = true) := by
  refine ⟨fun s => ?_, rfl, fun q ts t hq hmem => ?_⟩
  · simp only [typeMatches, List.contains, List.elem_iff, List.mem_map]
    constructor
    · rintro ⟨v, hv, hs⟩
      exact ⟨v, hv, hs.symm⟩
    · rintro ⟨v, hv, hs⟩
      exact ⟨v, hv, hs.symm⟩
  · have hf := mem_of_mem_getAllTakeoffs q ts t hmem
    rw [matchesFilter, hq] at hf
    simp only [Bool.and_eq_true] at hf
    exact hf.1.1.2

/-- C3 counterexample: query `type=a` and a record whose stored project
type is `A` — equal to the listed type up to case — is not returned,
refuting "for all casings of the stored project-type values". -/
theorem c3_type_filter_counterexample :
    getAllTakeoffs { type := some "a" } [upperTypeRecord] = [] ∧
    upperTypeRecord.projectType = some "A" ∧
    jsToLowerStr "A" = jsToLowerStr (jsTrimStr "a") ∧
    typeMatches "a" (some "A") = false :=
  ⟨rfl, rfl, rfl, rfl⟩

theorem c3_type_filter_witness :
    typeMatches "Residential,COMMERCIAL" (some "commercial") = true ∧
    typeMatches "residential" none = false :=
  ⟨(c3_type_filter "Residential,COMMERCIAL").1 "commercial" |>.2
    ⟨"COMMERCIAL".data, by decide, by decide⟩,
   (c3_type_filter "residential").2.1⟩

/-! ## C4: the pdfPreview field-group -/

/-- C4 (amended): an attachment stored from the `pdfPreview` group has
`isPdf = true` regardless of the file's declared MIME type; but in disk
mode first-page preview generation is attempted if and only if the
declared MIME type is `application/pdf` (and the raw upload succeeded)
— not unconditionally. -/
theorem c4_pdfpreview_group (mode : StorageMode) (now : Nat)
    (f : UploadedFile) (env : FileEnv) :
    (∀ a, (processPdfPreviewEntry mode now f env).2 = .ok a → a.isPdf = true) ∧
    (PEv.genPreviewCall ∈ (processPdfPreviewEntry mode now f env).1 ↔
       mode = .disk ∧ f.mimetype = "application/pdf" ∧
       ∃ r, uploadToCloudinary .disk env.fileExists env.uploadRes = .ok r) := by
  constructor
  · intro a ha
    unfold processPdfPreviewEntry at ha
    cases mode with
    | buffer =>
      dsimp only at ha
      rcases hu : env.uploadRes with e | r <;> rw [hu] at ha <;> dsimp only at ha <;>
        simp at ha
      rw [← ha]
    | disk =>
      dsimp only at ha
      rcases hu : uploadToCloudinary .disk env.fileExists env.uploadRes with e | r <;>
        rw [hu] at ha <;> dsimp only at ha
      · simp at ha
      · by_cases hm : f.mimetype = "application/pdf"
        · rw [if_pos hm] at ha
          rcases hp : generatePdfPreview .disk env.fileExists env.convertRes f.path
            with _ | p <;> rw [hp] at ha <;> dsimp only at ha
          · simp at ha
            rw [← ha]
          · rcases hpu : uploadToCloudinary .disk env.previewFileExists env.previewUploadRes
              with e' | r' <;> rw [hpu] at ha <;> dsimp only at ha <;> simp at ha
            rw [← ha]
        · rw [if_neg hm] at ha
          simp at ha
          rw [← ha]
  · unfold processPdfPreviewEntry
    cases mode with
    | buffer =>
      dsimp only
      rcases hu : env.uploadRes with e | r <;> simp
    | disk =>
      dsimp only
      rcases hu : uploadToCloudinary .disk env.fileExists env.uploadRes with e | r <;>
        dsimp only
      · simp
      · by_cases hm : f.mimetype = "application/pdf"
        · rw [if_pos hm]
          rcases hp : generatePdfPreview .disk env.fileExists env.convertRes f.path
            with _ | p <;> dsimp only
          · simp [hm]
          · rcases hpu : uploadToCloudinary .disk env.previewFileExists env.previewUploadRes
              with e' | r' <;> dsimp only <;> simp [hm]
        · rw [if_neg hm]
          simp [hm]

theorem c4_pdfpreview_group_witness :
    (processPdfPreviewEntry .disk 0 pdfFile okEnv).2 = .ok diskPlanAttachment ∧
    diskPlanAttachment.isPdf = true ∧
    PEv.genPreviewCall ∈ (processPdfPreviewEntry .disk 0 pdfFile okEnv).1 :=
  ⟨rfl, (c4_pdfpreview_group .disk 0 pdfFile okEnv).1 diskPlanAttachment rfl,
   (c4_pdfpreview_group .disk 0 pdfFile okEnv).2.2
     ⟨rfl, rfl, { publicId := "takeoffs/a", secureUrl := "https://res/a" }, rfl⟩⟩

/-- C4 counterexample: in disk mode, a `pdfPreview` file whose declared
MIME type is `image/png` gets no preview-generation attempt at all
(even though generation would have succeeded), refuting "preview
generation is always attempted regardless of the declared MIME type";
its stored attachment still has `isPdf = true`. -/
theorem c4_pdfpreview_group_counterexample :
    (processPdfPreviewEntry .disk 0 pngFile okEnv).1 = [PEv.uploadRaw] ∧
    PEv.genPreviewCall ∉ (processPdfPreviewEntry .disk 0 pngFile okEnv).1 ∧
    generatePdfPreview .disk okEnv.fileExists okEnv.convertRes pngFile.path
      = some "uploads/scan-1/preview.1.png" ∧
    (∃ a, (processPdfPreviewEntry .disk 0 pngFile okEnv).2 = .ok a ∧
       a.isPdf = true ∧ a.firstPagePreviewUrl = none) := by
  refine ⟨rfl, ?_, rfl, ⟨_, rfl, rfl, rfl⟩⟩
  intro hmem
  have h : (processPdfPreviewEntry .disk 0 pngFile okEnv).1 = [PEv.uploadRaw] := rfl
  rw [h] at hmem
  simp at hmem

/-! ## C9: preview generation degrades gracefully -/

/-- C9: the preview generator never raises: in buffer mode it returns
`none` immediately; in path mode any thrown error inside the body
becomes `none` (missing file, renderer error, empty render result all
give `none`), a successful non-empty render gives the generated path,
and a `none` preview never fails the enclosing create/update — the
attachment is stored with `firstPagePreviewUrl = none`. -/
theorem c9_preview_degrades (fileExists : Bool)
    (convertRes : Except String (List PageData)) (dir : String) :
    (∀ buf name, generatePdfPreviewFromBuffer buf name = none) ∧
    (∀ mode e, genPdfBody mode fileExists convertRes dir = .error e →
       generatePdfPreview mode fileExists convertRes dir = none) ∧
    (∀ conv d, generatePdfPreview .disk false conv d = none) ∧
    (∀ e, convertRes = .error e → generatePdfPreview .disk true convertRes dir = none) ∧
    (convertRes = .ok [] → generatePdfPreview .disk true convertRes dir = none) ∧
    (∀ p ps, convertRes = .ok (p :: ps) →
       generatePdfPreview .disk true convertRes dir = some (dir ++ "/" ++ p.name)) ∧
    (∀ now f env res, f.mimetype = "application/pdf" →
       uploadToCloudinary .disk env.fileExists env.uploadRes = .ok res →
       generatePdfPreview .disk env.fileExists env.convertRes f.path = none →
       ∃ a, (processFilesEntry .disk now f env).2 = .ok a ∧
         a.firstPagePreviewUrl = none ∧ a.isPdf = true) := by
  refine ⟨fun buf name => rfl, fun mode e he => ?_, fun conv d => rfl,
    fun e he => ?_, fun he => ?_, fun p ps he => ?_, ?_⟩
  · rw [generatePdfPreview, he]
  · simp [generatePdfPreview, genPdfBody, he]
  · simp [generatePdfPreview, genPdfBody, he]
  · simp [generatePdfPreview, genPdfBody, he]
  · intro now f env res hm hu hp
    have h : (processFilesEntry .disk now f env).2 = Except.ok
        { filename := jsOrStr f.filename (toString now ++ "-" ++ f.originalname)
          originalName := f.originalname
          size := f.size
          cloudinaryPublicId := some res.publicId
          cloudinaryUrl := res.secureUrl
          resourceType := "raw"
          uploadDate := now
          firstPagePreviewUrl := none
          isPdf := true } := by
      simp only [processFilesEntry, hu, hm, if_true]
      rw [hp]
    exact ⟨_, h, rfl, rfl⟩

theorem c9_preview_degrades_witness :
    generatePdfPreviewFromBuffer [1] "plan.pdf" = none ∧
    generatePdfPreview .disk true (Except.error "gm rasterize failed") "uploads/plan-1" = none ∧
    generatePdfPreview .disk false (Except.ok [{ name := "preview.1.png" }]) "d" = none ∧
    generatePdfPreview .disk true (Except.ok []) "d" = none ∧
    generatePdfPreview .disk true (Except.ok [{ name := "preview.1.png" }]) "d"
      = some "d/preview.1.png" ∧
    (∃ a, (processFilesEntry .disk 0 pdfFile renderFailEnv).2 = .ok a ∧
       a.firstPagePreviewUrl = none ∧ a.isPdf = true) :=
  ⟨(c9_preview_degrades true (.ok []) "d").1 [1] "plan.pdf",
   (c9_preview_degrades true (.error "gm rasterize failed") "uploads/plan-1").2.2.2.1
     "gm rasterize failed" rfl,
   (c9_preview_degrades true (.ok []) "d").2.2.1 (.ok [{ name := "preview.1.png" }]) "d",
   (c9_preview_degrades true (.ok []) "d").2.2.2.2.1 rfl,
   (c9_preview_degrades true (.ok [{ name := "preview.1.png" }]) "d").2.2.2.2.2.1
     { name := "preview.1.png" } [] rfl,
   (c9_preview_degrades true (.ok []) "d").2.2.2.2.2.2 0 pdfFile renderFailEnv
     { publicId := "takeoffs/a", secureUrl := "https://res/a" } rfl rfl rfl⟩

/-! ## C5: free-text search -/

theorem patMatchAt_eq_startsWithCI (ps : List Char)
    (h : ∀ c ∈ ps, isPcreMeta c = false) : ∀ ts, patMatchAt ps ts = startsWithCI ps ts := by
  induction ps with
  | nil => intro ts; cases ts <;> rfl
  | cons p pr ih =>
    intro ts
    have hp : isPcreMeta p = false := h p (List.mem_cons_self p pr)
    have hpd : ¬ p = '.' := by
      simp only [isPcreMeta, Bool.or_eq_false_iff, decide_eq_false_iff_not] at hp
      exact hp.1.1.1.1.1.1.1.1.1.1.1.1.1
    have hrest : ∀ c ∈ pr, isPcreMeta c = false := fun c hc => h c (List.mem_cons_of_mem p hc)
    cases ts with
    | nil => rfl
    | cons t tr =>
      simp only [patMatchAt, startsWithCI, patCharMatches, ih hrest, hpd]
      simp

theorem patSearch_eq_containsAux (ps : List Char)
    (h : ∀ c ∈ ps, isPcreMeta c = false) : ∀ ts, patSearch ps ts = containsAux ps ts := by
  intro ts
  induction ts with
  | nil => simp [patSearch, containsAux, patMatchAt_eq_startsWithCI ps h]
  | cons t tr ih => simp [patSearch, containsAux, patMatchAt_eq_startsWithCI ps h, ih]

/-- C5 (amended): the `search` string is handed to `$regex` as a
pattern, so only for search strings free of regex metacharacters is a
record included iff the string occurs case-insensitively as a substring
of its title, or description, or postal code (an OR of three substring
matches); a string containing metacharacters is interpreted as a
regular expression instead. -/
theorem c5_search_literal (pat : String)
    (hmeta : ∀ c ∈ pat.data, isPcreMeta c = false) (hpat : pat ≠ "") :
    (∀ s, regexTestCI pat s = containsCI pat s) ∧
    (∀ t : Takeoff,
       matchesFilter { search := some pat } t =
         ((t.title.elim false fun x => containsCI pat x) ||
          (t.description.elim false fun x => containsCI pat x) ||
          (t.zipCode.elim false fun x => containsCI pat x))) := by
  have hreg : ∀ s, regexTestCI pat s = containsCI pat s := fun s =>
    patSearch_eq_containsAux pat.data hmeta s.data
  refine ⟨hreg, fun t => ?_⟩
  have h1 : matchesFilter { search := some pat } t = searchClause pat t := by
    simp only [matchesFilter, truthy]
    rw [if_neg hpat]
    simp [priceMatches]
  rw [h1, searchClause]
  rcases htitle : t.title with _ | x <;>
  rcases hdesc : t.description with _ | y <;>
  rcases hzip : t.zipCode with _ | z <;>
    simp [hreg]

theorem c5_search_literal_witness :
    regexTestCI "roof" "My Roof bid" = containsCI "roof" "My Roof bid" ∧
    matchesFilter { search := some "75" } sampleRecord =
      ((sampleRecord.title.elim false fun x => containsCI "75" x) ||
       (sampleRecord.description.elim false fun x => containsCI "75" x) ||
       (sampleRecord.zipCode.elim false fun x => containsCI "75" x)) :=
  ⟨(c5_search_literal "roof" (by decide) (by decide)).1 "My Roof bid",
   (c5_search_literal "75" (by decide) (by decide)).2 sampleRecord⟩

/-- C5 counterexample: the search string `.` — which contains a regex
metacharacter and is not a substring of any field of the record — still
matches, because the filter performs regex matching, not substring
matching: the record is returned although the OR-of-substrings
condition is false. -/
theorem c5_search_counterexample :
    getAllTakeoffs { search := some "." } [dotRecord] = [dotRecord] ∧
    containsCI "." "a" = false ∧
    dotRecord.title = some "a" ∧ dotRecord.description = none ∧
    dotRecord.zipCode = none :=
  ⟨rfl, rfl, rfl, rfl, rfl⟩

/-! ## C6: JSON round trip and raw-string fallback -/

theorem parseStrChars_append (s rest : List Char)
    (h : ∀ c ∈ s, ¬(c = '"' ∨ c = '\\')) :
    parseStrChars (s ++ '"' :: rest) = some (s, rest) := by
  induction s with
  | nil => rfl
  | cons c cs ih =>
    have hc := h c (List.mem_cons_self c cs)
    push_neg at hc
    have hrest : ∀ x ∈ cs, ¬(x = '"' ∨ x = '\\') := fun x hx => h x (List.mem_cons_of_mem c hx)
    rw [List.cons_append, parseStrChars, ih hrest]
    · exact hc.1
    · exact fun h1 _ => hc.2 h1
    · exact fun e cs' h1 _ => hc.2 h1

theorem skipWs_not_ws (c : Char) (cs : List Char) (h : isWs c = false) :
    skipWs (c :: cs) = c :: cs := by
  rw [skipWs, h]
  rfl

theorem encode_head (v : Json) (h : cleanJson v = true) :
    ∃ c cs, encodeJson v = c :: cs ∧ isWs c = false ∧ ¬ c = ']' := by
  cases v with
  | jnull => exact ⟨'n', _, rfl, rfl, by decide⟩
  | jbool b =>
    cases b with
    | false => exact ⟨'f', _, rfl, rfl, by decide⟩
    | true => exact ⟨'t', _, rfl, rfl, by decide⟩
  | jnum s => simp [cleanJson] at h
  | jstr s => exact ⟨'"', _, rfl, rfl, by decide⟩
  | jarr l =>
    cases l with
    | nil => exact ⟨'[', _, rfl, rfl, by decide⟩
    | cons v vs => exact ⟨'[', _, rfl, rfl, by decide⟩
  | jobj l => simp [cleanJson] at h

theorem parseVal_arr_step (f : Nat) (X : List Char)
    (hX : skipWs X = X) (hne : X.head? ≠ some ']') :
    parseVal (f + 1) ('[' :: X) =
      match parseElems f X with
      | none => none
      | some (l, r) => some (.jarr l, r) := by
  have h1 : parseVal (f + 1) ('[' :: X) =
      match skipWs X with
      | ']' :: r => some (.jarr [], r)
      | cs' =>
        match parseElems f cs' with
        | none => none
        | some (l, r) => some (.jarr l, r) := rfl
  rw [h1, hX]
  rcases X with _ | ⟨c, cs⟩
  · rfl
  · by_cases hc : c = ']'
    · exact absurd (by subst hc; rfl) hne
    · have h2 : (match c :: cs with
          | ']' :: r => some (Json.jarr [], r)
          | cs' =>
            match parseElems f cs' with
            | none => none
            | some (l, r) => some (.jarr l, r)) =
          match parseElems f (c :: cs) with
          | none => none
          | some (l, r) => some (.jarr l, r) := by
        split
        · next r heq =>
          injection heq with hch _
          exact absurd hch hc
        · rfl
      exact h2

theorem jsonSize_pos (v : Json) : 1 ≤ jsonSize v := by
  cases v <;> simp [jsonSize]

/-- Parsing inverts encoding, for clean values, at any sufficient
fuel.  Proved simultaneously with the corresponding statement for
non-empty element lists, by strong induction on a size bound. -/
theorem parse_encode_strong (n : Nat) :
    (∀ v, cleanJson v = true → jsonSize v ≤ n → ∀ f rest, jsonSize v ≤ f →
       parseVal f (encodeJson v ++ rest) = some (v, rest)) ∧
    (∀ v vs, cleanJson v = true → cleanList vs = true → elemsSize (v :: vs) ≤ n →
       ∀ f rest, elemsSize (v :: vs) ≤ f →
       parseElems f (encodeJson v ++ (encodeElems vs ++ rest)) = some (v :: vs, rest)) := by
  induction n using Nat.strong_induction_on with
  | _ n ih =>
    constructor
    · intro v hclean hsize f rest hf
      match v with
      | .jnull =>
        have hs : (1 : Nat) ≤ f := by simpa [jsonSize] using hf
        obtain ⟨f', rfl⟩ : ∃ f', f = f' + 1 := ⟨f - 1, by omega⟩
        have he : encodeJson Json.jnull ++ rest = 'n' :: 'u' :: 'l' :: 'l' :: rest := by
          simp [encodeJson]
        rw [he]
        rfl
      | .jbool true =>
        have hs : (1 : Nat) ≤ f := by simpa [jsonSize] using hf
        obtain ⟨f', rfl⟩ : ∃ f', f = f' + 1 := ⟨f - 1, by omega⟩
        have he : encodeJson (Json.jbool true) ++ rest = 't' :: 'r' :: 'u' :: 'e' :: rest := by
          simp [encodeJson]
        rw [he]
        rfl
      | .jbool false =>
        have hs : (1 : Nat) ≤ f := by simpa [jsonSize] using hf
        obtain ⟨f', rfl⟩ : ∃ f', f = f' + 1 := ⟨f - 1, by omega⟩
        have he : encodeJson (Json.jbool false) ++ rest
            = 'f' :: 'a' :: 'l' :: 's' :: 'e' :: rest := by
          simp [encodeJson]
        rw [he]
        rfl
      | .jnum s => simp [cleanJson] at hclean
      | .jobj ms => simp [cleanJson] at hclean
      | .jstr s =>
        have hs : (1 : Nat) ≤ f := by simpa [jsonSize] using hf
        obtain ⟨f', rfl⟩ : ∃ f', f = f' + 1 := ⟨f - 1, by omega⟩
        have hchars : ∀ c ∈ s.data, ¬(c = '"' ∨ c = '\\') := by
          simp only [cleanJson, cleanStrB, List.all_eq_true, Bool.not_eq_true',
            Bool.or_eq_false_iff, decide_eq_false_iff_not] at hclean
          intro c hcmem
          exact not_or.mpr (hclean c hcmem)
        have he : encodeJson (Json.jstr s) ++ rest = '"' :: (s.data ++ '"' :: rest) := by
          simp [encodeJson]
        have hred : parseVal (f' + 1) ('"' :: (s.data ++ '"' :: rest)) =
            (match parseStrChars (s.data ++ '"' :: rest) with
             | none => none
             | some (s', r) => some (.jstr (String.mk s'), r)) := rfl
        rw [he, hred, parseStrChars_append s.data rest hchars]
      | .jarr [] =>
        have hs : (1 : Nat) ≤ f := by simpa [jsonSize, elemsSize] using hf
        obtain ⟨f', rfl⟩ : ∃ f', f = f' + 1 := ⟨f - 1, by omega⟩
        have he : encodeJson (Json.jarr []) ++ rest = '[' :: ']' :: rest := by
          simp [encodeJson]
        rw [he]
        rfl
      | .jarr (v :: vs) =>
        have hcv : cleanJson v = true ∧ cleanList vs = true := by
          simpa [cleanJson, cleanList, Bool.and_eq_true] using hclean
        have hsz : 1 + elemsSize (v :: vs) ≤ f := by simpa [jsonSize] using hf
        have hszn : 1 + elemsSize (v :: vs) ≤ n := by simpa [jsonSize] using hsize
        have hes : jsonSize v + 1 + elemsSize vs = elemsSize (v :: vs) := by
          simp [elemsSize]
        have hvpos := jsonSize_pos v
        obtain ⟨f', rfl⟩ : ∃ f', f = f' + 1 := ⟨f - 1, by omega⟩
        obtain ⟨c, cs, henc, hws, hne⟩ := encode_head v hcv.1
        have he : encodeJson (Json.jarr (v :: vs)) ++ rest
            = '[' :: (encodeJson v ++ (encodeElems vs ++ rest)) := by
          simp [encodeJson, List.append_assoc]
        have hXskip : skipWs (encodeJson v ++ (encodeElems vs ++ rest))
            = encodeJson v ++ (encodeElems vs ++ rest) := by
          rw [henc, List.cons_append, skipWs_not_ws c _ hws]
        have hXhead : (encodeJson v ++ (encodeElems vs ++ rest)).head? ≠ some ']' := by
          rw [henc, List.cons_append]
          simp [hne]
        have hlt : n - 1 < n := by omega
        have hB := (ih (n - 1) hlt).2 v vs hcv.1 hcv.2 (by omega) f' rest (by omega)
        rw [he, parseVal_arr_step f' _ hXskip hXhead, hB]
    · intro v vs hcv hcvs hsizeB f rest hfB
      have hsz : jsonSize v + 1 + elemsSize vs ≤ f := by simpa [elemsSize] using hfB
      have hszn : jsonSize v + 1 + elemsSize vs ≤ n := by simpa [elemsSize] using hsizeB
      have hvpos := jsonSize_pos v
      obtain ⟨f', rfl⟩ : ∃ f', f = f' + 1 := ⟨f - 1, by omega⟩
      have hlt : n - 1 < n := by omega
      have hA := (ih (n - 1) hlt).1 v hcv (by omega) f' (encodeElems vs ++ rest) (by omega)
      have h1 : parseElems (f' + 1) (encodeJson v ++ (encodeElems vs ++ rest)) =
          match parseVal f' (encodeJson v ++ (encodeElems vs ++ rest)) with
          | none => none
          | some (v', r) =>
            match skipWs r with
            | ',' :: r2 =>
              match parseElems f' r2 with
              | none => none
              | some (l, rr) => some (v' :: l, rr)
            | ']' :: r2 => some ([v'], r2)
            | _ => none := rfl
      rw [h1, hA]
      cases vs with
      | nil =>
        have hE : encodeElems ([] : List Json) ++ rest = ']' :: rest := by
          simp [encodeElems]
        rw [hE]
        rfl
      | cons w ws =>
        have hcw : cleanJson w = true ∧ cleanList ws = true := by
          simpa [cleanList, Bool.and_eq_true] using hcvs
        have hes2 : jsonSize w + 1 + elemsSize ws = elemsSize (w :: ws) := by
          simp [elemsSize]
        have hwpos := jsonSize_pos w
        have hE : encodeElems (w :: ws) ++ rest
            = ',' :: (encodeJson w ++ (encodeElems ws ++ rest)) := by
          simp [encodeElems, List.append_assoc]
        have hB2 := (ih (n - 1) hlt).2 w ws hcw.1 hcw.2 (by omega) f' rest (by omega)
        rw [hE]
        show (match parseElems f' (encodeJson w ++ (encodeElems ws ++ rest)) with
              | none => none
              | some (l, rr) => some (v :: l, rr)) = some (v :: w :: ws, rest)
        rw [hB2]

/-- A clean value's size is bounded by its encoding's length (so the
fuel `jsonParse` uses is always sufficient for encoded clean values). -/
theorem size_le_encLength (n : Nat) :
    (∀ v, cleanJson v = true → jsonSize v ≤ n → jsonSize v ≤ (encodeJson v).length) ∧
    (∀ l, cleanList l = true → elemsSize l ≤ n → elemsSize l + 1 ≤ (encodeElems l).length) := by
  induction n using Nat.strong_induction_on with
  | _ n ih =>
    constructor
    · intro v hclean hsize
      match v with
      | .jnull => simp [jsonSize, encodeJson]
      | .jbool true => simp [jsonSize, encodeJson]
      | .jbool false => simp [jsonSize, encodeJson]
      | .jnum s => simp [cleanJson] at hclean
      | .jobj ms => simp [cleanJson] at hclean
      | .jstr s => simp [jsonSize, encodeJson]
      | .jarr [] => simp [jsonSize, elemsSize, encodeJson]
      | .jarr (v :: vs) =>
        have hcv : cleanJson v = true ∧ cleanList vs = true := by
          simpa [cleanJson, cleanList, Bool.and_eq_true] using hclean
        have hszn : 1 + elemsSize (v :: vs) ≤ n := by simpa [jsonSize] using hsize
        have hes : elemsSize (v :: vs) = jsonSize v + 1 + elemsSize vs := by
          simp [elemsSize]
        have hvpos := jsonSize_pos v
        have hlt : n - 1 < n := by omega
        have hA := (ih (n - 1) hlt).1 v hcv.1 (by omega)
        have hB := (ih (n - 1) hlt).2 vs hcv.2 (by omega)
        simp only [jsonSize, encodeJson, List.length_cons, List.length_append]
        omega
    · intro l hclean hsize
      match l with
      | [] => simp [elemsSize, encodeElems]
      | v :: vs =>
        have hcv : cleanJson v = true ∧ cleanList vs = true := by
          simpa [cleanList, Bool.and_eq_true] using hclean
        have hes : elemsSize (v :: vs) = jsonSize v + 1 + elemsSize vs := by
          simp [elemsSize]
        have hvpos := jsonSize_pos v
        have hszn : jsonSize v + 1 + elemsSize vs ≤ n := by
          rw [← hes]
          exact hsize
        have hlt : n - 1 < n := by omega
        have hA := (ih (n - 1) hlt).1 v hcv.1 (by omega)
        have hB := (ih (n - 1) hlt).2 vs hcv.2 (by omega)
        simp only [elemsSize, encodeElems, List.length_cons, List.length_append]
        omega

/-- Round trip: parsing the canonical encoding of a clean JSON value
recovers the value. -/
theorem jsonParse_encode (v : Json) (h : cleanJson v = true) :
    jsonParse (String.mk (encodeJson v)) = some v := by
  have hb := (size_le_encLength (jsonSize v)).1 v h le_rfl
  have hA := (parse_encode_strong (jsonSize v)).1 v h le_rfl
      ((encodeJson v).length + 1) [] (by omega)
  rw [List.append_nil] at hA
  show (match parseVal ((encodeJson v).length + 1) (encodeJson v) with
        | some (v', rest) => if skipWs rest = [] then some v' else none
        | none => none) = some v
  rw [hA]
  rfl

theorem cleanJson_strArray (ss : List String) (h : ∀ s ∈ ss, cleanStrB s = true) :
    cleanJson (.jarr (ss.map .jstr)) = true := by
  induction ss with
  | nil => simp [cleanJson, cleanList]
  | cons s ss ih =>
    have hs := h s (List.mem_cons_self s ss)
    have hrest : ∀ x ∈ ss, cleanStrB x = true := fun x hx => h x (List.mem_cons_of_mem s hx)
    simp only [List.map, cleanJson, cleanList, Bool.and_eq_true]
    exact ⟨hs, by simpa [cleanJson] using ih hrest⟩

/-- C6: a record created with `features` supplied as the encoded text
of a JSON array of (escape-free) strings stores — and reads back — the
decoded array equal to the original; and any malformed encoded text is
not an error: the raw string is passed through unchanged and the create
succeeds. -/
theorem c6_features_roundtrip (mode : StorageMode) (now : Nat) (body : ReqBody)
    (filesIn pdfIn : List (UploadedFile × FileEnv)) (fs ps : List Attachment)
    (hf : (processSeq (processFilesEntry mode now) filesIn).2 = .ok fs)
    (hp : (processSeq (processPdfPreviewEntry mode now) pdfIn).2 = .ok ps) :
    (∀ fv, ∃ t tr,
       createTakeoff mode now { body with features := fv } filesIn pdfIn none
         = (tr, .created t) ∧
       t.features = fv.map parseBodyField ∧
       getTakeoffById (some t) = .jsonDoc t) ∧
    (∀ ss : List String, (∀ s ∈ ss, cleanStrB s = true) →
       parseBodyField (.str (encodeStrArray ss)) = .json (.jarr (ss.map .jstr))) ∧
    (∀ s : String, jsonParse s = none → parseBodyField (.str s) = .raw s) := by
  have e1 : processSeq (processFilesEntry mode now) filesIn
      = ((processSeq (processFilesEntry mode now) filesIn).1, Except.ok fs) :=
    Prod.ext_iff.2 ⟨rfl, hf⟩
  have e2 : processSeq (processPdfPreviewEntry mode now) pdfIn
      = ((processSeq (processPdfPreviewEntry mode now) pdfIn).1, Except.ok ps) :=
    Prod.ext_iff.2 ⟨rfl, hp⟩
  refine ⟨fun fv => ?_, fun ss hss => ?_, fun s hnone => ?_⟩
  · have hc : createTakeoff mode now { body with features := fv } filesIn pdfIn none
        = ((processSeq (processFilesEntry mode now) filesIn).1
            ++ (processSeq (processPdfPreviewEntry mode now) pdfIn).1,
           .created
             { title := body.title
               projectType := body.projectType
               projectSize := body.projectSize
               zipCode := body.zipCode
               address := body.address
               price := body.price
               features := fv.map parseBodyField
               specifications := body.specifications.map parseBodyField
               tags := body.tags.map parseBodyField
               isActive := body.isActive
               expirationDate := body.expirationDate
               createdBy := body.createdBy
               createdAt := now
               updatedAt := now
               files := fs
               pdfPreview := ps }) := by
      rw [createTakeoff, e1, e2]
    exact ⟨_, _, hc, rfl, rfl⟩
  · have hrt := jsonParse_encode (.jarr (ss.map .jstr)) (cleanJson_strArray ss hss)
    simp [parseBodyField, encodeStrArray, hrt]
  · simp [parseBodyField, hnone]

theorem c6_features_roundtrip_witness :
    parseBodyField (.str (encodeStrArray ["deck", "patio"]))
      = .json (.jarr [.jstr "deck", .jstr "patio"]) ∧
    parseBodyField (.str "[") = .raw "[" ∧
    (∃ t tr, createTakeoff .buffer 0 { features := some (.str "[") } [] [] none
       = (tr, .created t) ∧ t.features = some (.raw "[") ∧
       getTakeoffById (some t) = .jsonDoc t) := by
  obtain ⟨h1, h2, h3⟩ :=
    c6_features_roundtrip .buffer 0 {} [] [] [] [] rfl rfl
  refine ⟨h2 ["deck", "patio"] (by decide), h3 "[" rfl, ?_⟩
  obtain ⟨t, tr, ha, hb, hc⟩ := h1 (some (.str "["))
  exact ⟨t, tr, ha, hb.trans rfl, hc⟩

end Protakeoff
